import Mathlib

set_option maxRecDepth 10000

/-
Verification of the per-connection Stratum client engine of the eacrpool
mining pool (pool/client.go).  Pure functions of the source are translated
directly; the effectful handlers are translated as functions from an
explicit environment (the outcomes of the injected callbacks and of the
persistent store) to an explicit record of observable effects (responses
enqueued, counters changed, records persisted, upstream calls made).
Components of the repository that are referenced by client.go but whose
source is not part of the verified tree (the Stratum message constructors,
the error-code table, the message classifier) are modelled from the
specification and are marked as such.
-/

namespace EacrPool

/-- Stratum error kinds used by the client handlers.  Modelled from the
spec: the error table of message.go is not in the verified tree; the spec
names the kinds Unknown, LowDifficultyShare and DuplicateShare. -/
inductive StratumErrKind where
  | Unknown
  | LowDifficultyShare
  | DuplicateShare
deriving DecidableEq

/-- Pool error codes raised by the hex helpers of client.go.  Modelled from
the spec: the error-code table of error.go is not in the verified tree. -/
inductive PoolErrCode where
  | ErrWrongInputLength
deriving DecidableEq

/-- A Stratum response as enqueued by SubmitWorkResponse and
AuthorizeResponse: the original request id, the boolean result, and an
optional error.  Modelled from the spec (message.go is not in the
verified tree). -/
structure Response where
  id : Nat
  result : Bool
  err : Option StratumErrKind
deriving DecidableEq

/-- MaxMessageSize of client.go: the maximum size of a transmitted
message allowed, in bytes. -/
def MaxMessageSize : Nat := 250

/-- hashCalcThreshold of client.go: the fixed constant used as the
numerator of the average in the hash-rate formula. -/
def hashCalcThreshold : Nat := 20

/-- Core loop of hexReversed (client.go): writes the byte pairs of the
input from the last pair to the first.  The Go loop runs i from len-1
down to 1 in steps of 2, emitting in[i-1], in[i]; on a list this is the
reversal of the sequence of two-character pairs. -/
def hexRevCore : List Char → List Char
  | a :: b :: rest => hexRevCore rest ++ [a, b]
  | _ => []

/-- hexReversed of client.go: rejects inputs of odd length with
ErrWrongInputLength, otherwise reverses the hex string pairwise. -/
def hexReversed (l : List Char) : Except PoolErrCode (List Char) :=
  if l.length % 2 ≠ 0 then Except.error PoolErrCode.ErrWrongInputLength
  else Except.ok (hexRevCore l)

/-- reversePrevBlockWords of client.go: for each 8-hex-character word
(i, i+1, ..., i+7) of the input it writes the characters in the order
i+6, i+7, i+4, i+5, i+2, i+3, i, i+1 and moves to the next word. -/
def reversePrevBlockWords : List Char → List Char
  | c0 :: c1 :: c2 :: c3 :: c4 :: c5 :: c6 :: c7 :: rest =>
      c6 :: c7 :: c4 :: c5 :: c2 :: c3 :: c0 :: c1 :: reversePrevBlockWords rest
  | _ => []

/-- Two-step induction principle for lists, matching the recursion pattern
of hexRevCore. -/
def pairInduction {motive : List Char → Prop} (h0 : motive [])
    (h1 : ∀ a, motive [a])
    (h2 : ∀ a b rest, motive rest → motive (a :: b :: rest)) :
    ∀ l : List Char, motive l
  | [] => h0
  | [a] => h1 a
  | a :: b :: rest => h2 a b rest (pairInduction h0 h1 h2 rest)

/-- Eight-step induction principle for lists, matching the recursion
pattern of reversePrevBlockWords. -/
def octInduction {motive : List Char → Prop}
    (hshort : ∀ l : List Char, l.length < 8 → motive l)
    (hstep : ∀ a b c d e f g h rest, motive rest →
      motive (a :: b :: c :: d :: e :: f :: g :: h :: rest)) :
    ∀ l : List Char, motive l
  | [] => hshort [] (by simp)
  | [a] => hshort [a] (by simp)
  | [a, b] => hshort [a, b] (by simp)
  | [a, b, c] => hshort [a, b, c] (by simp)
  | [a, b, c, d] => hshort [a, b, c, d] (by simp)
  | [a, b, c, d, e] => hshort [a, b, c, d, e] (by simp)
  | [a, b, c, d, e, f] => hshort [a, b, c, d, e, f] (by simp)
  | [a, b, c, d, e, f, g] => hshort [a, b, c, d, e, f, g] (by simp)
  | a :: b :: c :: d :: e :: f :: g :: h :: rest =>
      hstep a b c d e f g h rest (octInduction hshort hstep rest)

theorem hexRevCore_length :
    ∀ l : List Char, l.length % 2 = 0 → (hexRevCore l).length = l.length := by
  refine pairInduction ?_ ?_ ?_
  · intro _; rfl
  · intro a h; simp at h
  · intro a b rest ih h
    have hrest : rest.length % 2 = 0 := by
      simp [List.length_cons] at h; omega
    simp [hexRevCore, ih hrest]

theorem hexRevCore_append :
    ∀ l : List Char, l.length % 2 = 0 →
      ∀ a b, hexRevCore (l ++ [a, b]) = a :: b :: hexRevCore l := by
  refine pairInduction ?_ ?_ ?_
  · intro _ a b; rfl
  · intro a h; simp at h
  · intro x y rest ih h a b
    have hrest : rest.length % 2 = 0 := by
      simp [List.length_cons] at h; omega
    simp [hexRevCore, ih hrest a b]

theorem hexRevCore_involutive :
    ∀ l : List Char, l.length % 2 = 0 → hexRevCore (hexRevCore l) = l := by
  refine pairInduction ?_ ?_ ?_
  · intro _; rfl
  · intro a h; simp at h
  · intro a b rest ih h
    have hrest : rest.length % 2 = 0 := by
      simp [List.length_cons] at h; omega
    have hlen : (hexRevCore rest).length % 2 = 0 := by
      rw [hexRevCore_length rest hrest]; exact hrest
    simp only [hexRevCore]
    rw [hexRevCore_append (hexRevCore rest) hlen a b, ih hrest]

theorem reversePrevBlockWords_involutive :
    ∀ l : List Char, l.length % 8 = 0 →
      reversePrevBlockWords (reversePrevBlockWords l) = l := by
  refine octInduction ?_ ?_
  · intro l hshort hmod
    have : l.length = 0 := by omega
    rw [List.length_eq_zero] at this
    subst this; rfl
  · intro a b c d e f g h rest ih hmod
    have hrest : rest.length % 8 = 0 := by
      simp [List.length_cons] at hmod; omega
    simp only [reversePrevBlockWords]
    rw [ih hrest]

/-- Claim C8: hexReversed is an involution on every hex string of even
length and returns an ErrWrongInputLength error on every input of odd
length; reversePrevBlockWords is an involution on every string whose
length is a multiple of 8 (in particular on 32-character inputs). -/
theorem hex_reversal_involutions (l : List Char) :
    (l.length % 2 = 0 → (hexReversed l).bind hexReversed = Except.ok l) ∧
    (l.length % 2 ≠ 0 → hexReversed l = Except.error PoolErrCode.ErrWrongInputLength) ∧
    (l.length % 8 = 0 →
      reversePrevBlockWords (reversePrevBlockWords l) = l) := by
  refine ⟨?_, ?_, ?_⟩
  · intro h
    have hlen : (hexRevCore l).length % 2 = 0 := by
      rw [hexRevCore_length l h]; exact h
    simp [hexReversed, h, hlen, Except.bind, hexRevCore_involutive l h]
  · intro h
    simp [hexReversed, h]
  · exact reversePrevBlockWords_involutive l

/-- Witness for C8 at concrete inputs: an even-length hex string, an
odd-length one, and a 16-character (two-word) previous-block fragment. -/
theorem hex_reversal_involutions_witness :
    (hexReversed "aabbccdd".toList).bind hexReversed = Except.ok "aabbccdd".toList ∧
    hexReversed "abc".toList = Except.error PoolErrCode.ErrWrongInputLength ∧
    reversePrevBlockWords (reversePrevBlockWords "0011223344556677".toList) =
      "0011223344556677".toList :=
  ⟨(hex_reversal_involutions "aabbccdd".toList).1 (by decide),
   (hex_reversal_involutions "abc".toList).2.1 (by decide),
   (hex_reversal_involutions "0011223344556677".toList).2.2 (by decide)⟩

/-- Exact rational multiplication written through Rat.divInt.  The
standard Rat arithmetic of the library is deliberately opaque to the
kernel, so the embedding computes with divInt (which the kernel can
evaluate) and the lemma ratMul_eq identifies it with multiplication. -/
def ratMul (a b : ℚ) : ℚ := Rat.divInt (a.num * b.num) ((a.den : Int) * (b.den : Int))

/-- Exact rational division through Rat.divInt; equals a / b. -/
def ratDiv (a b : ℚ) : ℚ := Rat.divInt (a.num * (b.den : Int)) ((a.den : Int) * b.num)

/-- Exact rational addition through Rat.divInt; equals a + b. -/
def ratAdd (a b : ℚ) : ℚ :=
  Rat.divInt (a.num * (b.den : Int) + b.num * (a.den : Int)) ((a.den : Int) * (b.den : Int))

theorem ratMul_eq (a b : ℚ) : ratMul a b = a * b := by
  rw [ratMul, Rat.divInt_eq_div]
  push_cast
  rw [← div_mul_div_comm, Rat.num_div_den, Rat.num_div_den]

theorem ratDiv_eq (a b : ℚ) : ratDiv a b = a / b := by
  have hinv : b⁻¹ = ((b.den : Int) : ℚ) / ((b.num : Int) : ℚ) := by
    rw [show b⁻¹ = Rat.inv b from rfl, Rat.inv_def, Rat.divInt_eq_div]
  rw [ratDiv, Rat.divInt_eq_div]
  push_cast
  push_cast at hinv
  rw [← div_mul_div_comm, Rat.num_div_den, div_eq_mul_inv a b, hinv]

theorem ratAdd_eq (a b : ℚ) : ratAdd a b = a + b := by
  have ha : ((a.den : ℚ)) ≠ 0 := Nat.cast_ne_zero.mpr a.den_ne_zero
  have hb : ((b.den : ℚ)) ≠ 0 := Nat.cast_ne_zero.mpr b.den_ne_zero
  rw [ratAdd, Rat.divInt_eq_div]
  push_cast
  conv_rhs => rw [← Rat.num_div_den a, ← Rat.num_div_den b, div_add_div _ _ ha hb]
  congr 1
  ring

/-- Floor of the base-2 logarithm, by structural recursion on a fuel
argument so that the kernel can evaluate it (the library Nat.log2 is
defined by well-founded recursion). -/
def natLog2Aux : Nat → Nat → Nat
  | 0, _ => 0
  | fuel + 1, n => if 2 ≤ n then natLog2Aux fuel (n / 2) + 1 else 0

/-- natLog2 n is the floor of log2 n for n > 0 (and 0 at 0). -/
def natLog2 (n : Nat) : Nat := natLog2Aux n n

/-- Round-to-nearest integer quotient with ties to even, on naturals:
the rounding rule of IEEE-754 binary64 arithmetic. -/
def divRoundNearestEven (n d : Nat) : Nat :=
  let q := n / d
  let r := n % d
  if 2 * r < d then q
  else if d < 2 * r then q + 1
  else if q % 2 = 0 then q else q + 1

/-- Floor of the base-2 logarithm of the positive rational a / b. -/
def ilog2 (a b : Nat) : Int :=
  let e : Int := (natLog2 a : Int) - (natLog2 b : Int)
  if 0 ≤ e then (if b * 2 ^ e.toNat ≤ a then e else e - 1)
  else (if b ≤ a * 2 ^ (-e).toNat then e else e - 1)

/-- The IEEE-754 binary64 (Go float64) value nearest to the rational q:
round to a 53-bit significand, ties to even.  Exponent-range overflow and
subnormals are not modelled; all quantities in client.go that pass
through float64 (the int64 submissions counter and the quotient
hashCalcThreshold / submissions) lie well inside the normal range.  Go
int64-to-float64 conversion and float64 division are correctly rounded,
so both are modelled by applying fl64 to the exact rational result. -/
def fl64 (q : ℚ) : ℚ :=
  if q = 0 then 0
  else
    let a := q.num.natAbs
    let b := q.den
    let k : Int := 52 - ilog2 a b
    let m : Nat :=
      if 0 ≤ k then divRoundNearestEven (a * 2 ^ k.toNat) b
      else divRoundNearestEven a (b * 2 ^ (-k).toNat)
    let mag : ℚ :=
      if 0 ≤ k then Rat.divInt (m : Int) ((2 : Int) ^ k.toNat)
      else Rat.divInt ((m : Int) * (2 : Int) ^ (-k).toNat) 1
    if q < 0 then -mag else mag

/-- State touched by the hash monitor of client.go: the hashRate big.Rat
and the atomic int64 submissions counter. -/
structure MonitorState where
  hashRate : ℚ
  submissions : Int
deriving DecidableEq

/-- setHashRate of client.go: exponential smoothing with factor one half,
computed exactly on big.Rat values. -/
def setHashRate (st : MonitorState) (hash : ℚ) : MonitorState :=
  { st with hashRate := ratDiv (ratAdd st.hashRate hash) 2 }

/-- One tick of hashMonitor (client.go).  The ticker fires every
cfgHashCalcThreshold seconds (the configured period), but the formula
divides by the package constant hashCalcThreshold = 20; the period takes
no part in the computation.  average is computed in Go float64
arithmetic: float64(hashCalcThreshold) / float64(submissions), modelled
by fl64 as explained there; difficulty times NonceIterations and the
final quotient and smoothing are exact big.Rat arithmetic, written with
the divInt-based helpers proved equal to the field operations above. -/
def hashMonitorTick (_cfgHashCalcThreshold : Nat) (difficulty nonceIterations : ℚ)
    (st : MonitorState) : MonitorState :=
  if st.submissions = 0 then st
  else
    let average : ℚ := fl64 (ratDiv (hashCalcThreshold : ℚ) (fl64 (st.submissions : ℚ)))
    let num := ratMul difficulty nonceIterations
    let hash := ratDiv num average
    { setHashRate st hash with submissions := 0 }

/-- Claim C7 (amended): a tick with submissions 0 changes nothing; a tick
with submissions s ≠ 0 such that the float64 roundings involved are exact
updates hashRate to (old + difficulty * NonceIterations * s / 20) / 2 and
resets submissions to 0; and the result never depends on the configured
ticker period, only on the fixed constant 20. -/
theorem hashMonitor_tick_formula (difficulty nonceIterations : ℚ) :
    (∀ (p : Nat) (st : MonitorState), st.submissions = 0 →
      hashMonitorTick p difficulty nonceIterations st = st) ∧
    (∀ (p : Nat) (st : MonitorState), st.submissions ≠ 0 →
      fl64 (st.submissions : ℚ) = (st.submissions : ℚ) →
      fl64 (Rat.divInt 20 st.submissions) = Rat.divInt 20 st.submissions →
      hashMonitorTick p difficulty nonceIterations st =
        ⟨(st.hashRate + difficulty * nonceIterations * (st.submissions : ℚ) / 20) / 2, 0⟩) ∧
    (∀ (p q : Nat) (st : MonitorState),
      hashMonitorTick p difficulty nonceIterations st =
        hashMonitorTick q difficulty nonceIterations st) := by
  refine ⟨?_, ?_, ?_⟩
  · intro p st h
    simp [hashMonitorTick, h]
  · intro p st hs h1 h2
    have hdiv : Rat.divInt 20 st.submissions = (20 : ℚ) / (st.submissions : ℚ) := by
      rw [Rat.divInt_eq_div]
      push_cast
      ring
    have key : fl64 (((hashCalcThreshold : Nat) : ℚ) / fl64 (st.submissions : ℚ)) =
        (20 : ℚ) / (st.submissions : ℚ) := by
      rw [h1, show (((hashCalcThreshold : Nat) : ℚ)) = (20 : ℚ) by
        norm_num [hashCalcThreshold], ← hdiv, h2, hdiv]
    simp only [hashMonitorTick, if_neg hs, setHashRate, ratMul_eq, ratAdd_eq, ratDiv_eq, key]
    congr 1
    rw [div_div_eq_mul_div]
  · intro p q st
    rfl

/-- Witness for C7 at submissions 5 (20 / 5 = 4 is exactly representable
in float64) and at submissions 0. -/
theorem hashMonitor_tick_formula_witness :
    hashMonitorTick 20 1 1 ⟨0, 5⟩ = ⟨(0 + 1 * 1 * ((5 : Int) : ℚ) / 20) / 2, 0⟩ ∧
    hashMonitorTick 20 1 1 ⟨1, 0⟩ = ⟨1, 0⟩ :=
  ⟨(hashMonitor_tick_formula 1 1).2.1 20 ⟨0, 5⟩ (by decide) (by decide) (by decide),
   (hashMonitor_tick_formula 1 1).1 20 ⟨1, 0⟩ rfl⟩

/-- Counterexample for C7 as stated: at submissions 3 the float64
quotient 20 / 3 is not exact, so the updated hashRate differs from the
exact-rational value (0 + 1 * 1 * 3 / 20) / 2 = 3 / 40 (the third
conjunct identifies that value with Rat.divInt 3 40), though submissions
is still reset to 0. -/
theorem hashMonitor_tick_cex :
    (hashMonitorTick 20 1 1 ⟨0, 3⟩).submissions = 0 ∧
    (hashMonitorTick 20 1 1 ⟨0, 3⟩).hashRate ≠ Rat.divInt 3 40 ∧
    Rat.divInt 3 40 = (0 + 1 * 1 * 3 / 20) / 2 :=
  ⟨by decide, by decide, by rw [Rat.divInt_eq_div]; norm_num⟩

/-- Miner endpoint variants recognized by client.go (the CPU,
AntminerDR3, AntminerDR5, InnosiliconD9 and WhatsminerD1 tags), plus a
default for every other tag. -/
inductive Miner where
  | CPU
  | AntminerDR3
  | AntminerDR5
  | InnosiliconD9
  | WhatsminerD1
  | Other
deriving DecidableEq

/-- DifficultyInfo of the pool: per-client pool difficulty, pool target
and the network powLimit, all big.Rat values. -/
structure DifficultyInfo where
  difficulty : ℚ
  target : ℚ
  powLimit : ℚ

/-- The per-client configuration consulted by handleSubmitWorkRequest:
the solo-pool flag, whether the active network is mainnet, the miner
variant, the ShareWeights table, and the difficulty info. -/
structure SubmitConfig where
  soloPool : Bool
  activeNetMainNet : Bool
  miner : Miner
  shareWeights : Miner → ℚ
  diffInfo : DifficultyInfo

/-- Outcome of the AcceptedWork Create call on the persistent store. -/
inductive CreateResult where
  | ok
  | workExists
  | otherErr
deriving DecidableEq

/-- Environment of one handleSubmitWorkRequest call: the request id, the
rate-limit verdict, and the outcomes of the external calls the handler
makes, in the order the code makes them.  netTarget is the big.Rat value
of standalone.CompactToBig header.Bits, hashTarget the big.Rat value of
standalone.HashToBig of the reconstructed header's block hash (a
big-endian number), blockHash the hash string used to key AcceptedWork. -/
structure SubmitEnv where
  reqId : Nat
  allowed : Bool
  parseOk : Bool
  jobFound : Bool
  headerOk : Bool
  netTarget : ℚ
  hashTarget : ℚ
  blockHash : String
  headerBytesOk : Bool
  shareCreateOk : Bool
  submitWorkRes : Option Bool
  workCreate : CreateResult

/-- Observable effects of one handleSubmitWorkRequest call: the responses
enqueued on the out channel, the change to the atomic submissions
counter, the Share records persisted (account and weight), the keys of
the AcceptedWork records persisted, and the number of upstream
SubmitWork calls. -/
structure SubmitEffects where
  responses : List Response
  submissionsDelta : Int
  shares : List (String × ℚ)
  acceptedWorkKeys : List String
  submitWorkCalls : Nat
deriving DecidableEq

/-- handleSubmitWorkRequest of client.go, translated branch by branch.
The share step reproduces claimWeightedShare: skipped in solo pool mode;
skipped (successfully, with no record) for a CPU miner on mainnet; on a
store error the handler answers Unknown.  Comparisons are those of the
code: hashTarget.Cmp(poolTarget) > 0, target.Sign() <= 0,
hashTarget.Cmp(netTarget) > 0. -/
def handleSubmitWorkRequest (cfg : SubmitConfig) (env : SubmitEnv) (account : String) :
    SubmitEffects :=
  if env.allowed = false then ⟨[⟨env.reqId, false, some StratumErrKind.Unknown⟩], 0, [], [], 0⟩
  else if env.parseOk = false then
    ⟨[⟨env.reqId, false, some StratumErrKind.Unknown⟩], 0, [], [], 0⟩
  else if env.jobFound = false then
    ⟨[⟨env.reqId, false, some StratumErrKind.Unknown⟩], 0, [], [], 0⟩
  else if env.headerOk = false then
    ⟨[⟨env.reqId, false, some StratumErrKind.Unknown⟩], 0, [], [], 0⟩
  else if env.netTarget ≤ 0 then
    ⟨[⟨env.reqId, false, some StratumErrKind.Unknown⟩], 0, [], [], 0⟩
  else if cfg.diffInfo.target < env.hashTarget then
    ⟨[⟨env.reqId, false, some StratumErrKind.LowDifficultyShare⟩], 0, [], [], 0⟩
  else
    let shareStep : Option (List (String × ℚ)) :=
      if cfg.soloPool = true then some []
      else if cfg.activeNetMainNet = true ∧ cfg.miner = Miner.CPU then some []
      else if env.shareCreateOk = true then some [(account, cfg.shareWeights cfg.miner)]
      else none
    match shareStep with
    | none => ⟨[⟨env.reqId, false, some StratumErrKind.Unknown⟩], 1, [], [], 0⟩
    | some sh =>
      if env.netTarget < env.hashTarget then
        ⟨[⟨env.reqId, true, none⟩], 1, sh, [], 0⟩
      else if env.headerBytesOk = false then
        ⟨[⟨env.reqId, false, some StratumErrKind.Unknown⟩], 1, sh, [], 0⟩
      else
        match env.submitWorkRes with
        | none => ⟨[⟨env.reqId, false, some StratumErrKind.Unknown⟩], 1, sh, [], 1⟩
        | some false => ⟨[⟨env.reqId, false, none⟩], 1, sh, [], 1⟩
        | some true =>
          match env.workCreate with
          | CreateResult.ok => ⟨[], 1, sh, [env.blockHash], 1⟩
          | CreateResult.workExists =>
            ⟨[⟨env.reqId, false, some StratumErrKind.DuplicateShare⟩], 1, sh, [], 1⟩
          | CreateResult.otherErr =>
            ⟨[⟨env.reqId, false, some StratumErrKind.Unknown⟩], 1, sh, [], 1⟩

/-- Claim C1: a submission whose job is found but whose header hash,
taken as a number, exceeds the pool target gets exactly one response with
the request id, result false and a LowDifficultyShare error, and the
handler stops: no submissions increment, no Share record, no AcceptedWork
record, no upstream call. -/
theorem low_difficulty_share_rejected (cfg : SubmitConfig) (env : SubmitEnv) (account : String)
    (h1 : env.allowed = true) (h2 : env.parseOk = true) (h3 : env.jobFound = true)
    (h4 : env.headerOk = true) (h5 : 0 < env.netTarget)
    (h6 : cfg.diffInfo.target < env.hashTarget) :
    handleSubmitWorkRequest cfg env account =
      ⟨[⟨env.reqId, false, some StratumErrKind.LowDifficultyShare⟩], 0, [], [], 0⟩ := by
  simp [handleSubmitWorkRequest, h1, h2, h3, h4, h5.not_le, h6]

/-- Witness for C1 at a concrete configuration and environment with
hashTarget 50 above pool target 10. -/
theorem low_difficulty_share_rejected_witness :
    handleSubmitWorkRequest ⟨false, false, Miner.Other, fun _ => 1, ⟨1, 10, 100⟩⟩
        ⟨3, true, true, true, true, 2, 50, "bh", true, true, some true, CreateResult.ok⟩ "acct" =
      ⟨[⟨3, false, some StratumErrKind.LowDifficultyShare⟩], 0, [], [], 0⟩ :=
  low_difficulty_share_rejected _ _ _ rfl rfl rfl rfl (by decide) (by decide)

/-- Claim C2 (amended): a submission at or below the pool target but
above the network target increments submissions by one, persists (in pool
mode, except for a CPU miner on mainnet, whose share credit is skipped)
exactly one Share weighted by ShareWeights of the miner for the client's
account, answers with result true and no error, and never calls
SubmitWork. -/
theorem pool_accepted_share (cfg : SubmitConfig) (env : SubmitEnv) (account : String)
    (h1 : env.allowed = true) (h2 : env.parseOk = true) (h3 : env.jobFound = true)
    (h4 : env.headerOk = true) (h5 : 0 < env.netTarget)
    (h6 : env.hashTarget ≤ cfg.diffInfo.target) (h7 : env.netTarget < env.hashTarget)
    (h8 : env.shareCreateOk = true)
    (h9 : ¬(cfg.activeNetMainNet = true ∧ cfg.miner = Miner.CPU)) :
    handleSubmitWorkRequest cfg env account =
      ⟨[⟨env.reqId, true, none⟩], 1,
        if cfg.soloPool = true then [] else [(account, cfg.shareWeights cfg.miner)], [], 0⟩ := by
  cases hsp : cfg.soloPool <;>
    simp [handleSubmitWorkRequest, h1, h2, h3, h4, h5.not_le, h6.not_lt, h7, h8, h9, hsp]

/-- Witness for C2 at a concrete pool-mode configuration: one share of
weight 1 is persisted and no upstream call happens. -/
theorem pool_accepted_share_witness :
    handleSubmitWorkRequest ⟨false, false, Miner.Other, fun _ => 1, ⟨1, 10, 100⟩⟩
        ⟨4, true, true, true, true, 2, 5, "bh", true, true, some true, CreateResult.ok⟩ "acct" =
      ⟨[⟨4, true, none⟩], 1, [("acct", 1)], [], 0⟩ :=
  pool_accepted_share _ _ _ rfl rfl rfl rfl (by decide) (by decide) (by decide) rfl (by decide)

/-- Counterexample for C2 as stated: with the active network mainnet and
a CPU miner, a submission satisfying every premise of the claim (pool
mode, hashTarget at most the pool target and above the positive network
target, share persistence available) is answered with result true and
increments submissions, yet NO Share record is persisted, contradicting
the claimed single weighted share. -/
theorem pool_accepted_share_cex :
    (2 : ℚ) < 5 ∧ (5 : ℚ) ≤ 10 ∧ (0 : ℚ) < 2 ∧
    (handleSubmitWorkRequest ⟨false, true, Miner.CPU, fun _ => 1, ⟨1, 10, 100⟩⟩
        ⟨4, true, true, true, true, 2, 5, "bh", true, true, some true, CreateResult.ok⟩
        "acct").responses = [⟨4, true, none⟩] ∧
    (handleSubmitWorkRequest ⟨false, true, Miner.CPU, fun _ => 1, ⟨1, 10, 100⟩⟩
        ⟨4, true, true, true, true, 2, 5, "bh", true, true, some true, CreateResult.ok⟩
        "acct").submissionsDelta = 1 ∧
    (handleSubmitWorkRequest ⟨false, true, Miner.CPU, fun _ => 1, ⟨1, 10, 100⟩⟩
        ⟨4, true, true, true, true, 2, 5, "bh", true, true, some true, CreateResult.ok⟩
        "acct").shares = [] ∧
    (handleSubmitWorkRequest ⟨false, true, Miner.CPU, fun _ => 1, ⟨1, 10, 100⟩⟩
        ⟨4, true, true, true, true, 2, 5, "bh", true, true, some true, CreateResult.ok⟩
        "acct").shares ≠ [("acct", (1 : ℚ))] := by
  decide

/-- Claim C3: when a submission passes both target checks and SubmitWork
accepts it, an AcceptedWork record keyed by the block hash is persisted;
a Create failure with the already-exists error yields a response with
result false and DuplicateShare, any other Create error yields a response
with an Unknown error, both carrying the request id. -/
theorem accepted_work_persisted (cfg : SubmitConfig) (env : SubmitEnv) (account : String)
    (h1 : env.allowed = true) (h2 : env.parseOk = true) (h3 : env.jobFound = true)
    (h4 : env.headerOk = true) (h5 : 0 < env.netTarget)
    (h6 : env.hashTarget ≤ cfg.diffInfo.target) (h7 : env.hashTarget ≤ env.netTarget)
    (hsh : cfg.soloPool = true ∨ (cfg.activeNetMainNet = true ∧ cfg.miner = Miner.CPU) ∨
      env.shareCreateOk = true)
    (h8 : env.headerBytesOk = true) (h9 : env.submitWorkRes = some true) :
    (env.workCreate = CreateResult.ok →
      (handleSubmitWorkRequest cfg env account).acceptedWorkKeys = [env.blockHash]) ∧
    (env.workCreate = CreateResult.workExists →
      (handleSubmitWorkRequest cfg env account).responses =
        [⟨env.reqId, false, some StratumErrKind.DuplicateShare⟩]) ∧
    (env.workCreate = CreateResult.otherErr →
      (handleSubmitWorkRequest cfg env account).responses =
        [⟨env.reqId, false, some StratumErrKind.Unknown⟩]) := by
  have hmain : ∀ sh, (if cfg.soloPool = true then some []
      else if cfg.activeNetMainNet = true ∧ cfg.miner = Miner.CPU then some []
      else if env.shareCreateOk = true then some [(account, cfg.shareWeights cfg.miner)]
      else none) = some sh →
      (handleSubmitWorkRequest cfg env account) =
        (match env.workCreate with
          | CreateResult.ok => ⟨[], 1, sh, [env.blockHash], 1⟩
          | CreateResult.workExists =>
            ⟨[⟨env.reqId, false, some StratumErrKind.DuplicateShare⟩], 1, sh, [], 1⟩
          | CreateResult.otherErr =>
            ⟨[⟨env.reqId, false, some StratumErrKind.Unknown⟩], 1, sh, [], 1⟩) := by
    intro sh hstep
    simp [handleSubmitWorkRequest, h1, h2, h3, h4, h5.not_le, h6.not_lt, h7.not_lt, h8, h9,
      hstep]
  rcases hstep : (if cfg.soloPool = true then some ([] : List (String × ℚ))
      else if cfg.activeNetMainNet = true ∧ cfg.miner = Miner.CPU then some []
      else if env.shareCreateOk = true then some [(account, cfg.shareWeights cfg.miner)]
      else none) with _ | sh
  · exfalso
    rcases hsh with hsp | hcpu | hok
    · simp [hsp] at hstep
    · rcases hcpu with ⟨hm, hc⟩
      by_cases hsp : cfg.soloPool = true <;> simp [hsp, hm, hc] at hstep
    · by_cases hsp : cfg.soloPool = true
      · simp [hsp] at hstep
      · by_cases hcpu : cfg.activeNetMainNet = true ∧ cfg.miner = Miner.CPU <;>
          simp [hsp, hcpu, hok] at hstep
  · have := hmain sh hstep
    refine ⟨?_, ?_, ?_⟩ <;> intro hwc <;> rw [this, hwc]

/-- Witness for C3 at a concrete environment in the already-exists case:
the duplicate submission is answered with DuplicateShare. -/
theorem accepted_work_persisted_witness :
    (handleSubmitWorkRequest ⟨false, false, Miner.Other, fun _ => 1, ⟨1, 10, 100⟩⟩
        ⟨5, true, true, true, true, 7, 5, "bh", true, true, some true, CreateResult.workExists⟩
        "acct").responses = [⟨5, false, some StratumErrKind.DuplicateShare⟩] :=
  (accepted_work_persisted _ _ _ rfl rfl rfl rfl (by decide) (by decide) (by decide)
    (Or.inr (Or.inr rfl)) rfl rfl).2.1 rfl

/-- Claim C10: when a submission passes both target checks, SubmitWork
accepts it and the AcceptedWork record is persisted without error, the
handler enqueues no response at all for the request. -/
theorem solved_block_no_response (cfg : SubmitConfig) (env : SubmitEnv) (account : String)
    (h1 : env.allowed = true) (h2 : env.parseOk = true) (h3 : env.jobFound = true)
    (h4 : env.headerOk = true) (h5 : 0 < env.netTarget)
    (h6 : env.hashTarget ≤ cfg.diffInfo.target) (h7 : env.hashTarget ≤ env.netTarget)
    (hsh : cfg.soloPool = true ∨ (cfg.activeNetMainNet = true ∧ cfg.miner = Miner.CPU) ∨
      env.shareCreateOk = true)
    (h8 : env.headerBytesOk = true) (h9 : env.submitWorkRes = some true)
    (h10 : env.workCreate = CreateResult.ok) :
    (handleSubmitWorkRequest cfg env account).responses = [] := by
  rcases hsh with hsp | hcpu | hok
  · simp [handleSubmitWorkRequest, h1, h2, h3, h4, h5.not_le, h6.not_lt, h7.not_lt, h8, h9,
      h10, hsp]
  · rcases hcpu with ⟨hm, hc⟩
    by_cases hsp : cfg.soloPool = true <;>
      simp [handleSubmitWorkRequest, h1, h2, h3, h4, h5.not_le, h6.not_lt, h7.not_lt, h8, h9,
        h10, hsp, hm, hc]
  · by_cases hsp : cfg.soloPool = true
    · simp [handleSubmitWorkRequest, h1, h2, h3, h4, h5.not_le, h6.not_lt, h7.not_lt, h8, h9,
        h10, hsp]
    · by_cases hcpu : cfg.activeNetMainNet = true ∧ cfg.miner = Miner.CPU <;>
        simp [handleSubmitWorkRequest, h1, h2, h3, h4, h5.not_le, h6.not_lt, h7.not_lt, h8, h9,
          h10, hsp, hcpu, hok]

/-- Witness for C10 at a concrete solved-block environment: zero
responses are enqueued. -/
theorem solved_block_no_response_witness :
    (handleSubmitWorkRequest ⟨false, false, Miner.Other, fun _ => 1, ⟨1, 10, 100⟩⟩
        ⟨6, true, true, true, true, 7, 5, "bh", true, true, some true, CreateResult.ok⟩
        "acct").responses = [] :=
  solved_block_no_response _ _ _ rfl rfl rfl rfl (by decide) (by decide) (by decide)
    (Or.inr (Or.inr rfl)) rfl rfl rfl

/-- A mining.subscribe response as built by SubscribeResponse: request
id, the notify id, the extranonce string returned as extraNonce1, the
advertised extraNonce2Size and an optional error.  Modelled from the
spec (message.go is not in the verified tree). -/
structure SubscribeResp where
  id : Nat
  notifyId : String
  extraNonce1 : List Char
  extraNonce2Size : Nat
  err : Option StratumErrKind
deriving DecidableEq

/-- Ordered events of handleSubscribeRequest: enqueueing the response on
the out channel and flipping the subscribed flag. -/
inductive SubEvent where
  | enqueue (r : SubscribeResp)
  | setSubscribedTrue
deriving DecidableEq

/-- Environment of one handleSubscribeRequest call: request id, the
rate-limit verdict, whether ParseSubscribeRequest succeeds, and the
notify id it returns (empty when the client provided none). -/
structure SubEnv where
  reqId : Nat
  allowed : Bool
  parseOk : Bool
  notifyId : String
deriving DecidableEq

/-- handleSubscribeRequest of client.go, translated branch by branch:
rate-limit and parse failures answer Unknown; otherwise a missing notify
id is generated as mn plus extraNonce1; the extranonce fields of the
response depend only on the miner variant (sixteen zeros prepended and
size 8 for the Antminer DR3 and DR5, eight zeros prepended and the
configured size for the Whatsminer D1, the bare extraNonce1 and the
configured size otherwise); the subscribed flag is flipped after the
response is enqueued. -/
def handleSubscribeRequest (miner : Miner) (extraNonce1 : List Char)
    (extraNonce2Size : Nat) (env : SubEnv) : List SubEvent :=
  if env.allowed = false then
    [SubEvent.enqueue ⟨env.reqId, "", [], 0, some StratumErrKind.Unknown⟩]
  else if env.parseOk = false then
    [SubEvent.enqueue ⟨env.reqId, "", [], 0, some StratumErrKind.Unknown⟩]
  else
    let nid := if env.notifyId = "" then "mn" ++ String.mk extraNonce1 else env.notifyId
    let resp : SubscribeResp :=
      match miner with
      | Miner.AntminerDR3 | Miner.AntminerDR5 =>
        ⟨env.reqId, nid, List.replicate 16 '0' ++ extraNonce1, 8, none⟩
      | Miner.WhatsminerD1 =>
        ⟨env.reqId, nid, List.replicate 8 '0' ++ extraNonce1, extraNonce2Size, none⟩
      | _ => ⟨env.reqId, nid, extraNonce1, extraNonce2Size, none⟩
    [SubEvent.enqueue resp, SubEvent.setSubscribedTrue]

/-- The per-connection client state mutated by the request handlers. -/
structure ClientState where
  authorized : Bool
  subscribed : Bool
  account : String
  name : String
deriving DecidableEq

/-- Effect of one subscribe event on the client state. -/
def applySubEvent (st : ClientState) : SubEvent → ClientState
  | SubEvent.enqueue _ => st
  | SubEvent.setSubscribedTrue => { st with subscribed := true }

/-- Effect of a sequence of subscribe events on the client state. -/
def applySubEvents (st : ClientState) (evs : List SubEvent) : ClientState :=
  evs.foldl applySubEvent st

/-- Claim C6: for a well-formed subscribe request within the rate limit,
the handler enqueues one response whose extranonce fields depend only on
the miner variant (padded to 24 hex characters with size 8 for the
Antminer DR3 and DR5, padded to 16 with the configured size for the
Whatsminer D1, the bare 8-character extraNonce1 with the configured size
otherwise) and then sets the subscribed flag. -/
theorem subscribe_response_extranonce (miner : Miner) (en1 : List Char) (sz : Nat)
    (env : SubEnv) (hA : env.allowed = true) (hP : env.parseOk = true)
    (hlen : en1.length = 8) :
    ∃ r : SubscribeResp,
      handleSubscribeRequest miner en1 sz env =
        [SubEvent.enqueue r, SubEvent.setSubscribedTrue] ∧
      r.id = env.reqId ∧ r.err = none ∧
      r.notifyId = (if env.notifyId = "" then "mn" ++ String.mk en1 else env.notifyId) ∧
      ((miner = Miner.AntminerDR3 ∨ miner = Miner.AntminerDR5) →
        r.extraNonce1 = List.replicate 16 '0' ++ en1 ∧ r.extraNonce1.length = 24 ∧
        r.extraNonce2Size = 8) ∧
      (miner = Miner.WhatsminerD1 →
        r.extraNonce1 = List.replicate 8 '0' ++ en1 ∧ r.extraNonce1.length = 16 ∧
        r.extraNonce2Size = sz) ∧
      (miner ≠ Miner.AntminerDR3 → miner ≠ Miner.AntminerDR5 → miner ≠ Miner.WhatsminerD1 →
        r.extraNonce1 = en1 ∧ r.extraNonce1.length = 8 ∧ r.extraNonce2Size = sz) ∧
      (∀ st : ClientState,
        (applySubEvents st (handleSubscribeRequest miner en1 sz env)).subscribed = true) := by
  cases miner <;>
    simp [handleSubscribeRequest, hA, hP, applySubEvents, applySubEvent, hlen]

/-- Witness for C6: the Antminer DR3 subscribe of scenario S3, with
extraNonce1 a1b2c3d4, yields the padded extranonce
0000000000000000a1b2c3d4 with size 8 and the notify id mna1b2c3d4. -/
theorem subscribe_response_extranonce_witness :
    ∃ r : SubscribeResp,
      handleSubscribeRequest Miner.AntminerDR3 "a1b2c3d4".toList 4 ⟨2, true, true, ""⟩ =
        [SubEvent.enqueue r, SubEvent.setSubscribedTrue] ∧
      r.extraNonce1 = "0000000000000000a1b2c3d4".toList ∧
      r.extraNonce2Size = 8 ∧ r.notifyId = "mna1b2c3d4" := by
  obtain ⟨r, hEq, _, _, hnid, hdr3, _, _, _⟩ :=
    subscribe_response_extranonce Miner.AntminerDR3 "a1b2c3d4".toList 4 ⟨2, true, true, ""⟩
      rfl rfl (by decide)
  obtain ⟨hen, _, hsz⟩ := hdr3 (Or.inl rfl)
  refine ⟨r, hEq, ?_, hsz, ?_⟩
  · rw [hen]; decide
  · rw [hnid]; decide

/-- Environment of one handleAuthorizeRequest call: request id, the
rate-limit verdict, whether ParseAuthorizeRequest succeeds and the
username it returns, and the outcomes of the pool-mode account steps in
the order the code performs them (AccountID derivation, a FetchAccount
failure other than value-not-found, NewAccount, account Create). -/
structure AuthEnv where
  reqId : Nat
  allowed : Bool
  parseOk : Bool
  username : String
  accountIdOk : Bool
  accountId : String
  fetchAccountFailsOther : Bool
  newAccountOk : Bool
  accountCreateOk : Bool
deriving DecidableEq

/-- handleAuthorizeRequest of client.go, translated branch by branch.
Every failure path answers Unknown with the request id and leaves the
state alone; the success path stores account and name (pool mode splits
the username into address.clientid) and only then sets authorized and
answers with result true. -/
def handleAuthorizeRequest (soloPool : Bool) (env : AuthEnv) (st : ClientState) :
    ClientState × List Response :=
  if env.allowed = false then
    (st, [⟨env.reqId, false, some StratumErrKind.Unknown⟩])
  else if env.parseOk = false then
    (st, [⟨env.reqId, false, some StratumErrKind.Unknown⟩])
  else
    match soloPool with
    | false =>
      let parts := env.username.splitOn "."
      if parts.length ≠ 2 then (st, [⟨env.reqId, false, some StratumErrKind.Unknown⟩])
      else if env.accountIdOk = false then
        (st, [⟨env.reqId, false, some StratumErrKind.Unknown⟩])
      else if env.fetchAccountFailsOther = true then
        (st, [⟨env.reqId, false, some StratumErrKind.Unknown⟩])
      else if env.newAccountOk = false then
        (st, [⟨env.reqId, false, some StratumErrKind.Unknown⟩])
      else if env.accountCreateOk = false then
        (st, [⟨env.reqId, false, some StratumErrKind.Unknown⟩])
      else
        let st1 := { st with account := env.accountId, name := (parts.getD 1 "").trim }
        ({ st1 with authorized := true }, [⟨env.reqId, true, none⟩])
    | true =>
      ({ st with name := env.username, authorized := true }, [⟨env.reqId, true, none⟩])

/-- One inbound message consumed by the processor, with the environment
its handler runs in.  Stray responses and unknown methods cancel the
connection without touching the flags. -/
inductive InEvent where
  | authorize (env : AuthEnv)
  | subscribe (env : SubEnv)
  | submit (env : SubmitEnv) (account : String)
  | stray

/-- One step of the processor of client.go, restricted to its effect on
the client state: authorize may set authorized, subscribe may set
subscribed, and the submit handler (which produces a SubmitEffects
record with no state component) and stray messages leave it unchanged. -/
def processStep (soloPool : Bool) (miner : Miner) (en1 : List Char) (sz : Nat)
    (st : ClientState) : InEvent → ClientState
  | InEvent.authorize env => (handleAuthorizeRequest soloPool env st).1
  | InEvent.subscribe env => applySubEvents st (handleSubscribeRequest miner en1 sz env)
  | InEvent.submit _ _ => st
  | InEvent.stray => st

/-- The processor run over a sequence of inbound messages. -/
def processRun (soloPool : Bool) (miner : Miner) (en1 : List Char) (sz : Nat)
    (st : ClientState) (evs : List InEvent) : ClientState :=
  evs.foldl (processStep soloPool miner en1 sz) st

theorem handleAuthorizeRequest_flags (soloPool : Bool) (env : AuthEnv) (st : ClientState) :
    (handleAuthorizeRequest soloPool env st).1.subscribed = st.subscribed ∧
    (st.authorized = true → (handleAuthorizeRequest soloPool env st).1.authorized = true) := by
  unfold handleAuthorizeRequest
  cases soloPool <;> dsimp only <;> repeat' split
  all_goals first
    | exact ⟨rfl, fun h => h⟩
    | exact ⟨rfl, fun _ => rfl⟩

theorem applySubEvents_flags (evs : List SubEvent) :
    ∀ st : ClientState, (applySubEvents st evs).authorized = st.authorized ∧
      (st.subscribed = true → (applySubEvents st evs).subscribed = true) := by
  induction evs with
  | nil => exact fun st => ⟨rfl, fun h => h⟩
  | cons e rest ih =>
    intro st
    cases e with
    | enqueue r =>
      simpa [applySubEvents, applySubEvent] using ih st
    | setSubscribedTrue =>
      have h := ih { st with subscribed := true }
      simp only [applySubEvents, List.foldl_cons, applySubEvent] at h ⊢
      exact ⟨h.1, fun _ => h.2 (by simp)⟩

theorem processStep_mono (soloPool : Bool) (miner : Miner) (en1 : List Char) (sz : Nat)
    (st : ClientState) (e : InEvent) :
    (st.authorized = true → (processStep soloPool miner en1 sz st e).authorized = true) ∧
    (st.subscribed = true → (processStep soloPool miner en1 sz st e).subscribed = true) := by
  cases e with
  | authorize env =>
    have h := handleAuthorizeRequest_flags soloPool env st
    exact ⟨h.2, fun hs => by simp only [processStep, h.1, hs]⟩
  | subscribe env =>
    have h := applySubEvents_flags (handleSubscribeRequest miner en1 sz env) st
    exact ⟨fun ha => by simp only [processStep, h.1, ha], h.2⟩
  | submit env account => exact ⟨fun h => h, fun h => h⟩
  | stray => exact ⟨fun h => h, fun h => h⟩

/-- Claim C5: over any sequence of inbound messages the authorized and
subscribed flags are monotonic: once true, no handler or other processor
path ever clears them. -/
theorem client_flags_monotonic (soloPool : Bool) (miner : Miner) (en1 : List Char) (sz : Nat)
    (st : ClientState) (evs : List InEvent) :
    (st.authorized = true → (processRun soloPool miner en1 sz st evs).authorized = true) ∧
    (st.subscribed = true → (processRun soloPool miner en1 sz st evs).subscribed = true) := by
  induction evs generalizing st with
  | nil => exact ⟨fun h => h, fun h => h⟩
  | cons e rest ih =>
    have hstep := processStep_mono soloPool miner en1 sz st e
    have hrest := ih (processStep soloPool miner en1 sz st e)
    exact ⟨fun h => hrest.1 (hstep.1 h), fun h => hrest.2 (hstep.2 h)⟩

/-- Witness for C5: a fully authorized and subscribed client stays so
across a concrete sequence of a stray message, an authorize failure and
a subscribe request. -/
theorem client_flags_monotonic_witness :
    (processRun false Miner.CPU "a1b2c3d4".toList 4 ⟨true, true, "a", "n"⟩
      [InEvent.stray, InEvent.authorize ⟨1, false, true, "u", true, "id", false, true, true⟩,
        InEvent.subscribe ⟨2, true, true, ""⟩]).authorized = true ∧
    (processRun false Miner.CPU "a1b2c3d4".toList 4 ⟨true, true, "a", "n"⟩
      [InEvent.stray, InEvent.authorize ⟨1, false, true, "u", true, "id", false, true, true⟩,
        InEvent.subscribe ⟨2, true, true, ""⟩]).subscribed = true :=
  ⟨(client_flags_monotonic false Miner.CPU "a1b2c3d4".toList 4 ⟨true, true, "a", "n"⟩
      [InEvent.stray, InEvent.authorize ⟨1, false, true, "u", true, "id", false, true, true⟩,
        InEvent.subscribe ⟨2, true, true, ""⟩]).1 rfl,
   (client_flags_monotonic false Miner.CPU "a1b2c3d4".toList 4 ⟨true, true, "a", "n"⟩
      [InEvent.stray, InEvent.authorize ⟨1, false, true, "u", true, "id", false, true, true⟩,
        InEvent.subscribe ⟨2, true, true, ""⟩]).2 rfl⟩

/-- A mining.notify payload as carried on the out channel: the fields of
WorkNotification in the order updateWork builds them. -/
structure WorkNotif where
  jobId : String
  prevBlock : List Char
  genTx1 : List Char
  genTx2 : List Char
  blockVersion : List Char
  nBits : List Char
  nTime : List Char
  cleanJob : Bool
deriving DecidableEq

/-- A message drained from the out channel by the sender: a response, a
mining.notify request, or any other request (identified by id here). -/
inductive OutMsg where
  | response (r : Response)
  | workNotify (n : WorkNotif)
  | otherRequest (id : Nat)
deriving DecidableEq

/-- A message actually encoded onto the socket by the sender. -/
inductive Emitted where
  | response (r : Response)
  | workNotify (n : WorkNotif)
  | request (id : Nat)
deriving DecidableEq

/-- handleAntminerDR3Work of client.go: nBits and nTime are hex-reversed
to big endian (a reversal error cancels the client and encodes nothing)
and the previous block hash is word-reversed before encoding. -/
def handleAntminerDR3Work (n : WorkNotif) : List Emitted :=
  match hexReversed n.nBits with
  | Except.error _ => []
  | Except.ok nBitsRev =>
    match hexReversed n.nTime with
    | Except.error _ => []
    | Except.ok nTimeRev =>
      let rewritten := { n with
        nBits := nBitsRev
        nTime := nTimeRev
        prevBlock := reversePrevBlockWords n.prevBlock }
      [Emitted.workNotify rewritten]

/-- handleInnosiliconD9Work of client.go: same rewriting as the DR3. -/
def handleInnosiliconD9Work (n : WorkNotif) : List Emitted :=
  match hexReversed n.nBits with
  | Except.error _ => []
  | Except.ok nBitsRev =>
    match hexReversed n.nTime with
    | Except.error _ => []
    | Except.ok nTimeRev =>
      let rewritten := { n with
        nBits := nBitsRev
        nTime := nTimeRev
        prevBlock := reversePrevBlockWords n.prevBlock }
      [Emitted.workNotify rewritten]

/-- handleWhatsminerD1Work of client.go: only the previous block hash is
word-reversed; nBits and nTime stay little endian. -/
def handleWhatsminerD1Work (n : WorkNotif) : List Emitted :=
  [Emitted.workNotify { n with prevBlock := reversePrevBlockWords n.prevBlock }]

/-- handleCPUWork of client.go: the notification is encoded verbatim. -/
def handleCPUWork (n : WorkNotif) : List Emitted :=
  [Emitted.workNotify n]

/-- One iteration of send (client.go) on a drained message: responses and
non-notify requests are encoded verbatim; a mining.notify is dropped
unless the client is both authorized and subscribed at that moment, and
otherwise rewritten per miner variant (an unknown variant cancels the
client and encodes nothing). -/
def sendStep (miner : Miner) (authorized subscribed : Bool) (msg : OutMsg) : List Emitted :=
  match msg with
  | OutMsg.response r => [Emitted.response r]
  | OutMsg.workNotify n =>
    if authorized = false ∨ subscribed = false then []
    else
      match miner with
      | Miner.CPU => handleCPUWork n
      | Miner.AntminerDR3 => handleAntminerDR3Work n
      | Miner.AntminerDR5 => handleAntminerDR3Work n
      | Miner.InnosiliconD9 => handleInnosiliconD9Work n
      | Miner.WhatsminerD1 => handleWhatsminerD1Work n
      | Miner.Other => []
  | OutMsg.otherRequest id => [Emitted.request id]

/-- Claim C4: the sender never writes a mining.notify unless both the
authorized and subscribed flags are true at the moment of emission, and
when either flag is false the notification is dropped with nothing
encoded for it. -/
theorem notify_requires_auth_and_sub (miner : Miner) (a s : Bool) :
    (∀ (msg : OutMsg) (n : WorkNotif),
      Emitted.workNotify n ∈ sendStep miner a s msg → a = true ∧ s = true) ∧
    (∀ n : WorkNotif, a = false ∨ s = false →
      sendStep miner a s (OutMsg.workNotify n) = []) := by
  constructor
  · intro msg n hmem
    cases msg with
    | response r => simp [sendStep] at hmem
    | otherRequest id => simp [sendStep] at hmem
    | workNotify m =>
      cases a with
      | false => simp [sendStep] at hmem
      | true =>
        cases s with
        | false => simp [sendStep] at hmem
        | true => exact ⟨rfl, rfl⟩
  · intro n h
    simp [sendStep, if_pos h]

/-- Witness for C4: with subscribed false a concrete notification is
dropped, and a concrete notification actually emitted for a CPU miner
implies both flags were true. -/
theorem notify_requires_auth_and_sub_witness :
    sendStep Miner.CPU true false
      (OutMsg.workNotify ⟨"j", [], [], [], [], [], [], true⟩) = [] ∧
    (true = true ∧ true = true) :=
  ⟨(notify_requires_auth_and_sub Miner.CPU true false).2
      ⟨"j", [], [], [], [], [], [], true⟩ (Or.inr rfl),
   (notify_requires_auth_and_sub Miner.CPU true true).1
      (OutMsg.workNotify ⟨"j", [], [], [], [], [], [], true⟩)
      ⟨"j", [], [], [], [], [], [], true⟩ (by decide)⟩

/-- Classification of an inbound line, per the spec of IdentifyMessage:
a request (method and id), a response (result or error, and id), or a
notice (method, no id). -/
inductive MsgClass where
  | request
  | response
  | notice
deriving DecidableEq

/-- Outcome of one reader iteration: either the client is cancelled, or
the decoded line is forwarded to the processor. -/
inductive ReadOutcome where
  | cancel
  | forward (line : List Char) (cls : MsgClass)
deriving DecidableEq

/-- bufio.Reader.ReadBytes of the Go standard library, as used by read
(client.go): it returns the input up to and including the first newline,
regardless of the reader's buffer size (MaxMessageSize = 250), because
ReadBytes accumulates full buffers across refills until the delimiter is
seen.  No data before a newline (stream end or read error) yields none. -/
def splitAtNewline : List Char → Option (List Char × List Char)
  | [] => none
  | c :: rest =>
    if c = '\n' then some ([c], rest)
    else
      match splitAtNewline rest with
      | none => none
      | some (line, rem) => some (c :: line, rem)

/-- One iteration of read (client.go), with the JSON classifier
IdentifyMessage (message.go, not in the verified tree) abstracted as the
identify argument: a read error cancels the client, an unclassifiable
line cancels the client, and every classified line is forwarded to the
processor.  No branch consults the length of the line. -/
def readStep (identify : List Char → Option MsgClass) (input : List Char) : ReadOutcome :=
  match splitAtNewline input with
  | none => ReadOutcome.cancel
  | some (line, _) =>
    match identify line with
    | none => ReadOutcome.cancel
    | some cls => ReadOutcome.forward line cls

/-- A concrete inbound mining.authorize line of 271 bytes, above the
250-byte MaxMessageSize. -/
def oversizeLine : List Char :=
  ("\x7b\"id\":1,\"method\":\"mining.authorize\",\"params\":[\"" ++
    String.mk (List.replicate 210 'a') ++ ".worker\",\"x\"]\x7d").toList

/-- A concrete inbound mining.subscribe line well below MaxMessageSize. -/
def smallLine : List Char :=
  "\x7b\"id\":2,\"method\":\"mining.subscribe\",\"params\":[]\x7d".toList

/-- Modelled from the spec: IdentifyMessage (message.go, not in the
verified tree) classifies a parsed JSON object with a method and an id
as a Request.  Both concrete lines above are such objects; this oracle
records their classification. -/
def classifyOracle (l : List Char) : Option MsgClass :=
  if l = oversizeLine ++ ['\n'] ∨ l = smallLine ++ ['\n'] then some MsgClass.request
  else none

theorem splitAtNewline_append (line rest : List Char) (h : '\n' ∉ line) :
    splitAtNewline (line ++ '\n' :: rest) = some (line ++ ['\n'], rest) := by
  induction line with
  | nil => simp [splitAtNewline]
  | cons c cs ih =>
    have hc : ¬(c = '\n') := fun hEq => h (hEq ▸ List.mem_cons_self c cs)
    have h2 : '\n' ∉ cs := fun hm => h (List.mem_cons_of_mem c hm)
    simp [splitAtNewline, hc, ih h2]

theorem readStep_forwards_classified (identify : List Char → Option MsgClass)
    (line rest : List Char) (cls : MsgClass) (h : '\n' ∉ line)
    (hid : identify (line ++ ['\n']) = some cls) :
    readStep identify (line ++ '\n' :: rest) = ReadOutcome.forward (line ++ ['\n']) cls := by
  simp [readStep, splitAtNewline_append line rest h, hid]

/-- Claim C9 evidence: the reader imposes no line-length limit.  The
concrete 271-byte line (above MaxMessageSize = 250) is delivered to the
processor rather than terminating the connection, and the small
classifiable line is forwarded as well. -/
theorem oversize_line_forwarded :
    MaxMessageSize < oversizeLine.length ∧
    readStep classifyOracle (oversizeLine ++ '\n' :: []) =
      ReadOutcome.forward (oversizeLine ++ ['\n']) MsgClass.request ∧
    readStep classifyOracle (oversizeLine ++ '\n' :: []) ≠ ReadOutcome.cancel ∧
    smallLine.length ≤ MaxMessageSize ∧
    readStep classifyOracle (smallLine ++ '\n' :: []) =
      ReadOutcome.forward (smallLine ++ ['\n']) MsgClass.request := by
  refine ⟨by decide, ?_, ?_, by decide, ?_⟩
  · exact readStep_forwards_classified classifyOracle oversizeLine [] MsgClass.request
      (by decide) (by decide)
  · rw [readStep_forwards_classified classifyOracle oversizeLine [] MsgClass.request
      (by decide) (by decide)]
    decide
  · exact readStep_forwards_classified classifyOracle smallLine [] MsgClass.request
      (by decide) (by decide)

end EacrPool
